import Mathlib

/-
Verification development for the Rprtr crawler (src/crawler.ts, the class
`Crawler`, its helper `sortAndFilterUrls`, and the status report).

The TypeScript source is shallowly embedded below.  String-level operations
of the JavaScript runtime (toLowerCase, split, the WHATWG URL constructor)
and of the tldts library (getDomain, getDomainWithoutSuffix) are modelled
by explicit Lean functions on character lists; every such model carries a
doc comment naming the runtime function it stands for and the subset of
inputs it covers.  The batch loop of Crawler.crawl is embedded as a
deterministic fuel-indexed state machine; inside a batch the concurrent
fetch+extract tasks are sequentialised in batch order (counter increments
and set insertions commute, so set contents and counter values agree with
any interleaving).
-/

/-! ### Modelled JavaScript string primitives -/

/-- Models JavaScript String.prototype.toLowerCase for one character,
restricted to ASCII (U+0041..U+005A map to U+0061..U+007A, everything else
is fixed).  URLs handled by the crawler are ASCII. -/
def lowerChar (c : Char) : Char :=
  if 65 ≤ c.toNat ∧ c.toNat ≤ 90 then Char.ofNat (c.toNat + 32) else c

/-- Models JavaScript String.prototype.toLowerCase (ASCII subset),
character by character. -/
def lowerStr (s : String) : String :=
  (s.toList.map lowerChar).asString

/-- The part of a character list before the first occurrence of a given
character; models `str.split(sep)[0]` for a one-character separator. -/
def takeBefore (sep : Char) (l : List Char) : List Char :=
  l.takeWhile (fun c => c ≠ sep)

/-- Models `url.split("?")[0]` from Crawler.push: everything before the
first question mark (the whole string when there is none). -/
def stripQuery (s : String) : String :=
  (takeBefore '?' s.toList).asString

/-- Boolean prefix test on strings, via character lists.  Models
JavaScript String.prototype.startsWith. -/
def startsWithStr (s p : String) : Bool :=
  p.toList.isPrefixOf s.toList

/-! ### URL normalization (Crawler.push, lines 371-385) -/

/-- The normalization pipeline a URL undergoes in Crawler.push before the
frontier/visited bookkeeping, in source order: lower-case the whole string
when ignoreCase, then truncate at the first `?` when ignoreQueryParams. -/
def normalizeUrl (ignoreCase ignoreQueryParams : Bool) (url : String) : String :=
  let u1 := if ignoreCase then lowerStr url else url
  if ignoreQueryParams then stripQuery u1 else u1

/-! ### Host, domain, origin, pathname (models of tldts and WHATWG URL) -/

/-- Strips a leading "http://" or "https://" scheme, returning the rest of
the URL; none when the string carries neither scheme. -/
def dropScheme (u : String) : Option String :=
  if startsWithStr u "http://" then some (u.drop 7)
  else if startsWithStr u "https://" then some (u.drop 8)
  else none

/-- Models tldts.getDomain for URLs whose host is itself a registrable
domain (the shape exercised by this repository: two-label hosts such as
x.com): extracts the host between the scheme and the first `/`, `?`, `#`
or `:`.  Returns none for strings without an http(s) scheme or with an
empty host, matching getDomain returning null on unparseable input. -/
def getDomainM (u : String) : Option String :=
  (dropScheme u).bind fun rest =>
    let h := rest.toList.takeWhile (fun c => c ≠ '/' ∧ c ≠ '?' ∧ c ≠ '#' ∧ c ≠ ':')
    if h = [] then none else some h.asString

/-- Models tldts.getDomainWithoutSuffix for simple hosts: the label left of
the public suffix, computed here as the second-to-last dot-separated label
of the host (e.g. "x" for host "x.com"). -/
def getDomainWithoutSuffixM (u : String) : Option String :=
  (getDomainM u).bind fun h =>
    let labels := (h.toList.splitOn '.').map List.asString
    if labels.length < 2 then none else labels.get? (labels.length - 2)

/-- Models the origin (scheme ++ host[:port]) of an absolute http(s) URL,
as used by `new URL(href, base)` when href is root-relative. -/
def originOf (u : String) : Option String :=
  (dropScheme u).bind fun rest =>
    let hp := rest.toList.takeWhile (fun c => c ≠ '/' ∧ c ≠ '?' ∧ c ≠ '#')
    if hp = [] then none
    else some ((if startsWithStr u "http://" then "http://" else "https://") ++ hp.asString)

/-- Models `new URL(href, pageUrl).href` for the href shapes this
repository exercises: an absolute http(s) URL resolves to itself, a
root-relative path ("/...") resolves against the page's origin.  Any other
shape is outside the modelled subset and yields none (standing for the URL
constructor failing). -/
def resolveUrl (href pageUrl : String) : Option String :=
  if startsWithStr href "http://" || startsWithStr href "https://" then some href
  else if startsWithStr href "/" then (originOf pageUrl).map (fun o => o ++ href)
  else none

/-- Models `new URL(u).pathname` for absolute http(s) URLs: the part after
the host and before any query or fragment, "/" when that part is empty. -/
def pathnameOf (u : String) : List Char :=
  match dropScheme u with
  | none => ['/']
  | some rest =>
    let afterHost := rest.toList.dropWhile (fun c => c ≠ '/' ∧ c ≠ '?' ∧ c ≠ '#')
    let path := afterHost.takeWhile (fun c => c ≠ '?' ∧ c ≠ '#')
    if path = [] then ['/'] else path

/-! ### The result-sink ordering: sortAndFilterUrls (lines 403-425) -/

/-- The `/`-separated segments of a URL's pathname with empty segments
dropped, as computed inside the sort comparator of sortAndFilterUrls. -/
def pathSegments (u : String) : List (List Char) :=
  ((pathnameOf u).splitOn '/').filter (fun seg => seg ≠ [])

/-- Models the JavaScript `<` comparison of two strings (code-unit
lexicographic), on character lists. -/
def lexLt : List Char → List Char → Bool
  | [], [] => false
  | [], _ :: _ => true
  | _ :: _, [] => false
  | a :: as, b :: bs => if a < b then true else if b < a then false else lexLt as bs

/-- The segment-by-segment loop of the comparator in sortAndFilterUrls:
first differing segment decides via string `<`, otherwise the difference
of the (remaining, hence total) segment counts. -/
def segCompare : List (List Char) → List (List Char) → Int
  | a :: as, b :: bs =>
    if lexLt a b then -1 else if lexLt b a then 1 else segCompare as bs
  | as, bs => (as.length : Int) - (bs.length : Int)

/-- The comparator passed to Array.prototype.sort in sortAndFilterUrls. -/
def cmpUrls (a b : String) : Int :=
  segCompare (pathSegments a) (pathSegments b)

/-- Stable insertion of one element into a list sorted by a comparator:
the new element goes after every element comparing ≤ 0 against it. -/
def insertSorted (x : String) : List String → List String
  | [] => [x]
  | y :: ys => if cmpUrls y x ≤ 0 then y :: insertSorted x ys else x :: y :: ys

/-- Models sortAndFilterUrls (a Set argument is modelled as the list of its
elements): `urls.sort(comparator)` as a stable comparator sort.  Despite
its name the function neither filters nor deduplicates. -/
def sortAndFilterUrls (urls : List String) : List String :=
  urls.foldl (fun acc u => insertSorted u acc) []

/-! ### Counters and fetch outcomes -/

/-- The counters object of the Crawler class (type CrawlerCounters in the
source). -/
structure CrawlerCounters where
  crawled : Nat
  skipped : Nat
  error : Nat
  deriving DecidableEq, Repr

/-- The configuration a Crawler instance carries after construction:
constructor arguments plus the environment-derived thread bound and skip
codes. -/
structure CrawlerConfig where
  anyTLD : Bool
  ignoreQueryParams : Bool
  ignoreCase : Bool
  maxConcurrentThreads : Nat
  skipCodes : List Nat
  deriving DecidableEq, Repr

/-- `anyTLD ? getDomainWithoutSuffix(url) : getDomain(url)`, as computed
both for the seed (Crawler.crawl) and for every discovered link
(Crawler.extractLinks). -/
def domainOf (cfg : CrawlerConfig) (u : String) : Option String :=
  if cfg.anyTLD then getDomainWithoutSuffixM u else getDomainM u

/-- How one axios.get of a URL ends, as the code's handlers distinguish
the cases.  `ok hrefs` is a 2xx/3xx response whose body parses and carries
the given anchor href attributes in document order; `okNoData` is a
response with a falsy body; `okExtractThrows` is a response whose
cheerio/extraction step throws; `httpError s` is a rejected request that
carries a response with status s; `networkError` is a rejected request
with no response object at all. -/
inductive FetchOutcome where
  | ok (hrefs : List String)
  | okNoData
  | okExtractThrows
  | httpError (status : Nat)
  | networkError
  deriving DecidableEq, Repr

/-- A web environment: what fetching each URL yields. -/
def Web : Type := String → FetchOutcome

/-! ### Crawler.extractLinks (lines 296-369) -/

/-- The anchor-href pipeline of Crawler.extractLinks on a successfully
fetched body: drop empty and pure-fragment hrefs, resolve each against the
page URL (a failing resolution makes the whole pipeline throw, hence
none), keep http(s) protocols, keep hrefs whose domain equals the
crawler's base domain, and return the resolved URL strings. -/
def processHrefs (cfg : CrawlerConfig) (baseDomain : Option String)
    (pageUrl : String) (hrefs : List String) : Option (List String) :=
  let kept := hrefs.filter (fun h => h ≠ "" && !(startsWithStr h "#"))
  (kept.mapM (fun h => resolveUrl h pageUrl)).map fun resolved =>
    ((resolved.filter fun u => startsWithStr u "http://" || startsWithStr u "https://").filter
      fun u => domainOf cfg u = baseDomain)

namespace Crawler

/-- Crawler.extractLinks: returns the same-domain links of the page and
the counters after the call.  Branches, following the source: a skip-set
status runs the catch handler (skipped++) and then the `!data` branch
(skipped++ again); a non-skip-set response status runs the catch handler
(error++), throws, and lands in the outer catch (error++ again); a
rejection without a response object throws a TypeError while building the
skip log message, landing in the outer catch (error++); a falsy body runs
only the `!data` branch (skipped++); an extraction throw lands in the
outer catch (error++).  The `finally` block increments crawled on every
path. -/
def extractLinks (cfg : CrawlerConfig) (baseDomain : Option String)
    (pageUrl : String) (c : CrawlerCounters) (o : FetchOutcome) :
    List String × CrawlerCounters :=
  match o with
  | .ok hrefs =>
    match processHrefs cfg baseDomain pageUrl hrefs with
    | some links => (links, { c with crawled := c.crawled + 1 })
    | none => ([], { c with error := c.error + 1, crawled := c.crawled + 1 })
  | .okNoData => ([], { c with skipped := c.skipped + 1, crawled := c.crawled + 1 })
  | .okExtractThrows => ([], { c with error := c.error + 1, crawled := c.crawled + 1 })
  | .httpError status =>
    if status ∈ cfg.skipCodes then
      ([], { c with skipped := c.skipped + 2, crawled := c.crawled + 1 })
    else
      ([], { c with error := c.error + 2, crawled := c.crawled + 1 })
  | .networkError => ([], { c with error := c.error + 1, crawled := c.crawled + 1 })

end Crawler

/-! ### The frontier/visited state machine (Crawler.crawl, lines 157-195) -/

/-- The mutable state of a Crawler during one crawl.  `queue` is the
frontier (_queue, a JS Set modelled as its insertion-ordered duplicate-free
list), `alreadyCrawled` the visited set (_alreadyCrawled, same modelling),
plus the counters and the batch count.  `fetchLog` and `batchLog` are
ghost instrumentation: the URLs passed to extractLinks in call order, and
the successive batches returned by takeAndRemove. -/
structure CrawlerState where
  queue : List String
  alreadyCrawled : List String
  counters : CrawlerCounters
  batchesCrawled : Nat
  fetchLog : List String
  batchLog : List (List String)
  deriving DecidableEq, Repr

namespace Crawler

/-- Crawler.push: normalize the URL (lower-case when ignoreCase, truncate
at `?` when ignoreQueryParams), drop it when already crawled, then add it
to the frontier set (a no-op when already queued). -/
def push (cfg : CrawlerConfig) (st : CrawlerState) (url : String) : CrawlerState :=
  let u := normalizeUrl cfg.ignoreCase cfg.ignoreQueryParams url
  if u ∈ st.alreadyCrawled then st
  else if u ∈ st.queue then st
  else { st with queue := st.queue ++ [u] }

/-- Crawler.takeAndRemove: the first maxConcurrentThreads frontier entries
(JS Set iteration order is insertion order) become the batch; each is
deleted from the frontier and added to the visited set before the batch is
returned.  The ghost batchLog records the batch. -/
def takeAndRemove (cfg : CrawlerConfig) (st : CrawlerState) :
    List String × CrawlerState :=
  let batch := st.queue.take cfg.maxConcurrentThreads
  (batch,
    { st with
      queue := st.queue.drop cfg.maxConcurrentThreads
      alreadyCrawled := st.alreadyCrawled ++ batch
      batchLog := st.batchLog ++ [batch] })

/-- One fetch+extract task of a batch: extractLinks on the URL, then push
every returned link.  The ghost fetchLog records the fetch. -/
def processUrl (cfg : CrawlerConfig) (web : Web) (baseDomain : Option String)
    (st : CrawlerState) (url : String) : CrawlerState :=
  let r := extractLinks cfg baseDomain url st.counters (web url)
  let st1 := { st with counters := r.2, fetchLog := st.fetchLog ++ [url] }
  r.1.foldl (push cfg) st1

/-- One iteration of the while loop in Crawler.crawl: take a batch, run
its fetch+extract tasks (sequentialised in batch order; see the header
comment), and count the batch. -/
def crawlStep (cfg : CrawlerConfig) (web : Web) (baseDomain : Option String)
    (st : CrawlerState) : CrawlerState :=
  let tr := takeAndRemove cfg st
  let st2 := tr.1.foldl (processUrl cfg web baseDomain) tr.2
  { st2 with batchesCrawled := st2.batchesCrawled + 1 }

/-- The while loop of Crawler.crawl, indexed by fuel; none means the fuel
ran out before the frontier emptied. -/
def crawlLoop (cfg : CrawlerConfig) (web : Web) (baseDomain : Option String) :
    Nat → CrawlerState → Option CrawlerState
  | 0, st => if st.queue = [] then some st else none
  | fuel + 1, st =>
    if st.queue = [] then some st
    else crawlLoop cfg web baseDomain fuel (crawlStep cfg web baseDomain st)

/-- The part of Crawler.crawl that runs before the while loop: starting
from a fresh crawler (empty frontier and visited set, zeroed counters),
fetch+extract the seed directly (the seed never passes through push or the
visited set), push its links, and count the seed batch. -/
def initialState (cfg : CrawlerConfig) (web : Web) (seedUrl : String) :
    CrawlerState :=
  let st1 := processUrl cfg web (domainOf cfg seedUrl) ⟨[], [], ⟨0, 0, 0⟩, 0, [], []⟩ seedUrl
  { st1 with batchesCrawled := st1.batchesCrawled + 1 }

/-- Crawler.crawl: compute the base domain from the seed (a null result
is only logged — execution continues), process the seed page
(initialState), then run the batch loop.  The final status call and the
sink writes do not change engine state and are omitted. -/
def crawl (cfg : CrawlerConfig) (web : Web) (seedUrl : String) (fuel : Nat) :
    Option CrawlerState :=
  crawlLoop cfg web (domainOf cfg seedUrl) fuel (initialState cfg web seedUrl)

end Crawler

/-! ### Crawler.status (lines 197-221) -/

/-- The report object Crawler.status returns. -/
structure StatusReport where
  batchesCrawled : Nat
  counters : CrawlerCounters
  timeElapsed : Nat
  deriving DecidableEq, Repr

namespace Crawler

/-- Crawler.status: throws when _startTime is still 0 (crawl() has never
run), otherwise returns the report with the elapsed time.  The throw is
modelled as Except.error carrying the thrown message. -/
def status (startTime now batchesCrawled : Nat) (counters : CrawlerCounters) :
    Except String StatusReport :=
  if startTime = 0 then Except.error "Crawler hasn\x27t started yet"
  else Except.ok ⟨batchesCrawled, counters, now - startTime⟩

end Crawler

/-! ### The constructor's skip-code initialisation (lines 134-155) -/

/-- The field initializer of _skipCodes in the Crawler class declaration. -/
def skipCodesFieldInit : List Nat := [404]

/-- What _skipCodes holds once the constructor has run: the field
initializer [404] is unconditionally overwritten by
`process.env.SKIP_CODES?.split(",").map(Number) || []` — the parsed
environment list when SKIP_CODES is set, and the empty list otherwise.
The environment variable is modelled already split and parsed. -/
def constructorSkipCodes (envSkipCodes : Option (List Nat)) : List Nat :=
  match envSkipCodes with
  | some codes => codes
  | none => []

/-! ### Concrete configurations and scenario webs -/

/-- The configuration the spec describes as default: constructor defaults
anyTLD=false, ignoreQueryParams=true, ignoreCase=true, thread bound 10,
and the skip set {404} of the _skipCodes field initializer. -/
def cfgDefault : CrawlerConfig := ⟨false, true, true, 10, [404]⟩

/-- The end-to-end scenario graph of claim C2: the seed page links to /a,
/b and a cross-domain URL; /a has no links; /b links back to /a; every
other URL is a 404. -/
def webC2 : Web := fun u =>
  if u = "https://x.com" then .ok ["/a", "/b", "http://other.com/x"]
  else if u = "https://x.com/a" then .ok []
  else if u = "https://x.com/b" then .ok ["/a"]
  else .httpError 404

/-- A one-page site whose only page links back to itself. -/
def webSelfLoop : Web := fun u =>
  if u = "https://x.com/" then .ok ["/"] else .httpError 404

/-- A web on which every fetch fails without a response object. -/
def webErr : Web := fun _ => .networkError

/-! ### Helper lemmas on characters and lists -/

/-- Packing a valid codepoint and reading it back is the identity. -/
theorem toNat_ofNat_valid (n : Nat) (h : n.isValidChar) : (Char.ofNat n).toNat = n := by
  rw [Char.ofNat, dif_pos h]
  rfl

/-- The modelled toLowerCase is idempotent on characters: a lowered
character is never in the upper-case range again. -/
theorem lowerChar_lowerChar (c : Char) : lowerChar (lowerChar c) = lowerChar c := by
  unfold lowerChar
  by_cases h : 65 ≤ c.toNat ∧ c.toNat ≤ 90
  · rw [if_pos h]
    obtain ⟨h1, h2⟩ := h
    rw [if_neg]
    intro hc
    obtain ⟨h3, h4⟩ := hc
    have hv : (c.toNat + 32).isValidChar := by
      left
      omega
    rw [toNat_ofNat_valid _ hv] at h3 h4
    omega
  · rw [if_neg h, if_neg h]

theorem map_lower_idem (l : List Char) :
    (l.map lowerChar).map lowerChar = l.map lowerChar := by
  induction l with
  | nil => rfl
  | cons x xs ih => simp [List.map_cons, lowerChar_lowerChar, ih]

theorem takeWhile_takeWhile_self (p : Char → Bool) (l : List Char) :
    (l.takeWhile p).takeWhile p = l.takeWhile p := by
  induction l with
  | nil => rfl
  | cons x xs ih =>
    by_cases h : p x
    · simp [List.takeWhile_cons, h, ih]
    · simp [List.takeWhile_cons, h]

theorem takeWhile_map_comm (f : Char → Char) (p : Char → Bool) (l : List Char) :
    (l.map f).takeWhile p = (l.takeWhile (fun c => p (f c))).map f := by
  induction l with
  | nil => rfl
  | cons x xs ih =>
    by_cases h : p (f x)
    · simp [List.takeWhile_cons, h, ih]
    · simp [List.takeWhile_cons, h]

/-- Lowering a query-truncated already-lowered character list changes
nothing. -/
theorem map_lower_takeBefore_lower (l : List Char) :
    (takeBefore '?' (l.map lowerChar)).map lowerChar = takeBefore '?' (l.map lowerChar) := by
  unfold takeBefore
  rw [takeWhile_map_comm, List.map_map]
  have : (lowerChar ∘ lowerChar) = fun c => lowerChar (lowerChar c) := rfl
  rw [this]
  have : (fun c => lowerChar (lowerChar c)) = lowerChar := by
    funext c
    exact lowerChar_lowerChar c
  rw [this]

theorem toList_asString (l : List Char) : (List.asString l).toList = l := rfl

theorem stripQuery_stripQuery (s : String) : stripQuery (stripQuery s) = stripQuery s := by
  simp only [stripQuery, toList_asString, takeBefore, takeWhile_takeWhile_self]

theorem lowerStr_lowerStr (s : String) : lowerStr (lowerStr s) = lowerStr s := by
  simp only [lowerStr, toList_asString, map_lower_idem]

theorem lowerStr_stripQuery_lowerStr (s : String) :
    lowerStr (stripQuery (lowerStr s)) = stripQuery (lowerStr s) := by
  simp only [lowerStr, stripQuery, toList_asString]
  rw [map_lower_takeBefore_lower]

/-- Claim C8: URL normalization is idempotent — for every URL u and every
setting of the ignoreCase and ignoreQueryParams flags, applying the push
normalization pipeline (lower-casing, query-stripping) to an
already-normalized URL yields the same URL. -/
theorem c8_normalize_idempotent (ic iq : Bool) (u : String) :
    normalizeUrl ic iq (normalizeUrl ic iq u) = normalizeUrl ic iq u := by
  cases ic <;> cases iq
  · simp [normalizeUrl]
  · simp [normalizeUrl, stripQuery_stripQuery]
  · simp [normalizeUrl, lowerStr_lowerStr]
  · simp only [normalizeUrl, if_pos]
    rw [lowerStr_stripQuery_lowerStr, stripQuery_stripQuery]

/-! ### The sink ordering: permutation and the ordering example -/

theorem insertSorted_perm (x : String) (l : List String) :
    (insertSorted x l).Perm (x :: l) := by
  induction l with
  | nil => exact List.Perm.refl _
  | cons y ys ih =>
    unfold insertSorted
    by_cases h : cmpUrls y x ≤ 0
    · rw [if_pos h]
      exact (ih.cons y).trans (List.Perm.swap x y ys)
    · rw [if_neg h]

theorem foldl_insertSorted_perm (l acc : List String) :
    (l.foldl (fun a u => insertSorted u a) acc).Perm (acc ++ l) := by
  induction l generalizing acc with
  | nil => simp
  | cons x xs ih =>
    simp only [List.foldl_cons]
    refine (ih (insertSorted x acc)).trans ?_
    refine (List.Perm.append_right xs (insertSorted_perm x acc)).trans ?_
    exact List.perm_middle.symm

/-- Claim C10: sortAndFilterUrls performs no filtering and no
deduplication despite its name — its output is a permutation of its input
list (a Set argument is modelled as the list of its elements): the same
elements with the same multiplicity, only reordered. -/
theorem c10_sort_is_permutation (urls : List String) :
    (sortAndFilterUrls urls).Perm urls := by
  simpa using foldl_insertSorted_perm urls []

/-- Claim C7: the result sink's ordering function sorts URLs by
path-segment lexicographic comparison (split the pathname on `/`, drop
empty segments, compare segment by segment, shorter path winning ties), so
the given three URLs come out with /a first, /a/b second and /b last. -/
theorem c7_sink_ordering :
    sortAndFilterUrls ["https://x.com/a/b", "https://x.com/a", "https://x.com/b"] =
      ["https://x.com/a", "https://x.com/a/b", "https://x.com/b"] := by decide

/-! ### Counter behaviour of extractLinks -/

/-- Claim C6: for every dequeued URL, the crawled counter is incremented
exactly once per fetch+extraction attempt — the `finally` block of
Crawler.extractLinks runs on every path, whether the fetch succeeded, was
skipped, failed, or the extraction threw. -/
theorem c6_crawled_incremented_once (cfg : CrawlerConfig) (bd : Option String)
    (pageUrl : String) (c : CrawlerCounters) (o : FetchOutcome) :
    (Crawler.extractLinks cfg bd pageUrl c o).2.crawled = c.crawled + 1 := by
  cases o with
  | ok hrefs =>
    cases h : processHrefs cfg bd pageUrl hrefs <;> simp [Crawler.extractLinks, h]
  | okNoData => simp [Crawler.extractLinks]
  | okExtractThrows => simp [Crawler.extractLinks]
  | httpError status =>
    by_cases h : status ∈ cfg.skipCodes <;> simp [Crawler.extractLinks, h]
  | networkError => simp [Crawler.extractLinks]

/-- Claim C1 (evaluated at the failing input): fetching a URL whose
response status 404 lies in the configured skip set increments skipped by
2 — once in the rejection handler and once more in the `!data` branch —
not by 1 as specified; error stays 0, no links are contributed, and the
call returns normally (the crawl continues). -/
theorem c1_skip_increments_skipped_twice :
    Crawler.extractLinks cfgDefault (some "x.com") "https://x.com/p" ⟨0, 0, 0⟩
      (.httpError 404) = ([], ⟨1, 2, 0⟩) := by decide

/-- Claim C4 (evaluated at the failing input): with no SKIP_CODES override
in the environment the constructor leaves the skip set empty — the [404]
field initializer is unconditionally overwritten by the
`env.SKIP_CODES ... || []` expression — while an override does replace the
set with the supplied codes. -/
theorem c4_skip_default_is_empty :
    constructorSkipCodes none = [] ∧ 404 ∉ constructorSkipCodes none ∧
      skipCodesFieldInit = [404] ∧ constructorSkipCodes (some [500, 410]) = [500, 410] := by
  decide

/-! ### Crawler.status -/

/-- Claim C9: status() called before crawl() has ever started (start time
still zero) throws "Crawler hasn\x27t started yet"; once the start time is
set (crawl() stores a nonzero clock value), every status() call returns
the report with batch count, counters and elapsed time. -/
theorem c9_status_throws_before_start (startTime now batches : Nat)
    (c : CrawlerCounters) :
    (startTime = 0 →
      Crawler.status startTime now batches c = Except.error "Crawler hasn\x27t started yet") ∧
    (startTime ≠ 0 →
      Crawler.status startTime now batches c = Except.ok ⟨batches, c, now - startTime⟩) := by
  constructor
  · intro h
    simp [Crawler.status, h]
  · intro h
    simp [Crawler.status, h]

/-- Witness for C9 at concrete states: a never-started crawler (start time
0) makes status throw, and a started one (start time 3, now 5) yields the
report. -/
theorem c9_status_throws_before_start_witness :
    Crawler.status 0 5 0 ⟨0, 0, 0⟩ = Except.error "Crawler hasn\x27t started yet" ∧
      Crawler.status 3 5 2 ⟨1, 2, 3⟩ = Except.ok ⟨2, ⟨1, 2, 3⟩, 2⟩ :=
  ⟨(c9_status_throws_before_start 0 5 0 ⟨0, 0, 0⟩).1 rfl,
    (c9_status_throws_before_start 3 5 2 ⟨1, 2, 3⟩).2 (by decide)⟩

/-! ### Engine invariants: the frontier and visited set stay duplicate-free
and disjoint, and the visited set is exactly the concatenation of the
batches -/

/-- The state invariant of the frontier engine: frontier and visited set
are duplicate-free, no URL is in both at once, and the visited set is the
concatenation of the batches taken so far. -/
def stInv (st : CrawlerState) : Prop :=
  st.queue.Nodup ∧ st.alreadyCrawled.Nodup ∧
    st.queue.Disjoint st.alreadyCrawled ∧
    st.batchLog.flatten = st.alreadyCrawled

theorem push_alreadyCrawled (cfg : CrawlerConfig) (st : CrawlerState) (u : String) :
    (Crawler.push cfg st u).alreadyCrawled = st.alreadyCrawled := by
  simp only [Crawler.push]
  split
  · rfl
  · split <;> rfl

theorem push_batchLog (cfg : CrawlerConfig) (st : CrawlerState) (u : String) :
    (Crawler.push cfg st u).batchLog = st.batchLog := by
  simp only [Crawler.push]
  split
  · rfl
  · split <;> rfl

theorem push_counters (cfg : CrawlerConfig) (st : CrawlerState) (u : String) :
    (Crawler.push cfg st u).counters = st.counters := by
  simp only [Crawler.push]
  split
  · rfl
  · split <;> rfl

theorem push_fetchLog (cfg : CrawlerConfig) (st : CrawlerState) (u : String) :
    (Crawler.push cfg st u).fetchLog = st.fetchLog := by
  simp only [Crawler.push]
  split
  · rfl
  · split <;> rfl

theorem push_batchesCrawled (cfg : CrawlerConfig) (st : CrawlerState) (u : String) :
    (Crawler.push cfg st u).batchesCrawled = st.batchesCrawled := by
  simp only [Crawler.push]
  split
  · rfl
  · split <;> rfl

theorem push_queue_mem (cfg : CrawlerConfig) (st : CrawlerState) (u : String) :
    ∀ q ∈ (Crawler.push cfg st u).queue,
      q ∈ st.queue ∨ q = normalizeUrl cfg.ignoreCase cfg.ignoreQueryParams u := by
  intro q hq
  simp only [Crawler.push] at hq
  split at hq
  · exact Or.inl hq
  · split at hq
    · exact Or.inl hq
    · rw [List.mem_append] at hq
      rcases hq with h | h
      · exact Or.inl h
      · right
        simpa using h

theorem push_inv (cfg : CrawlerConfig) (st : CrawlerState) (u : String)
    (h : stInv st) : stInv (Crawler.push cfg st u) := by
  obtain ⟨hq, hc, hd, hb⟩ := h
  simp only [Crawler.push]
  split
  · exact ⟨hq, hc, hd, hb⟩
  · split
    · exact ⟨hq, hc, hd, hb⟩
    · rename_i hnc hnq
      refine ⟨?_, hc, ?_, hb⟩
      · rw [List.nodup_append]
        refine ⟨hq, List.nodup_singleton _, ?_⟩
        intro a ha hau
        rw [List.mem_singleton] at hau
        subst hau
        exact hnq ha
      · intro a ha hac
        rw [List.mem_append] at ha
        rcases ha with h | h
        · exact hd h hac
        · rw [List.mem_singleton] at h
          subst h
          exact hnc hac

theorem foldl_push_inv (cfg : CrawlerConfig) (links : List String) :
    ∀ st : CrawlerState, stInv st → stInv (links.foldl (Crawler.push cfg) st) := by
  induction links with
  | nil => exact fun st h => h
  | cons l ls ih =>
    intro st h
    exact ih _ (push_inv cfg st l h)

theorem foldl_push_alreadyCrawled (cfg : CrawlerConfig) (links : List String) :
    ∀ st : CrawlerState,
      (links.foldl (Crawler.push cfg) st).alreadyCrawled = st.alreadyCrawled := by
  induction links with
  | nil => exact fun _ => rfl
  | cons l ls ih =>
    intro st
    rw [List.foldl_cons, ih, push_alreadyCrawled]

theorem foldl_push_batchLog (cfg : CrawlerConfig) (links : List String) :
    ∀ st : CrawlerState, (links.foldl (Crawler.push cfg) st).batchLog = st.batchLog := by
  induction links with
  | nil => exact fun _ => rfl
  | cons l ls ih =>
    intro st
    rw [List.foldl_cons, ih, push_batchLog]

theorem foldl_push_counters (cfg : CrawlerConfig) (links : List String) :
    ∀ st : CrawlerState, (links.foldl (Crawler.push cfg) st).counters = st.counters := by
  induction links with
  | nil => exact fun _ => rfl
  | cons l ls ih =>
    intro st
    rw [List.foldl_cons, ih, push_counters]

theorem foldl_push_fetchLog (cfg : CrawlerConfig) (links : List String) :
    ∀ st : CrawlerState, (links.foldl (Crawler.push cfg) st).fetchLog = st.fetchLog := by
  induction links with
  | nil => exact fun _ => rfl
  | cons l ls ih =>
    intro st
    rw [List.foldl_cons, ih, push_fetchLog]

theorem foldl_push_batchesCrawled (cfg : CrawlerConfig) (links : List String) :
    ∀ st : CrawlerState,
      (links.foldl (Crawler.push cfg) st).batchesCrawled = st.batchesCrawled := by
  induction links with
  | nil => exact fun _ => rfl
  | cons l ls ih =>
    intro st
    rw [List.foldl_cons, ih, push_batchesCrawled]

theorem foldl_push_queue_mem (cfg : CrawlerConfig) (links : List String) :
    ∀ st : CrawlerState, ∀ q ∈ (links.foldl (Crawler.push cfg) st).queue,
      q ∈ st.queue ∨
        ∃ l ∈ links, q = normalizeUrl cfg.ignoreCase cfg.ignoreQueryParams l := by
  induction links with
  | nil => exact fun st q hq => Or.inl hq
  | cons l ls ih =>
    intro st q hq
    rw [List.foldl_cons] at hq
    rcases ih _ q hq with h | ⟨l', hl', he⟩
    · rcases push_queue_mem cfg st l q h with h' | h'
      · exact Or.inl h'
      · exact Or.inr ⟨l, List.mem_cons_self l ls, h'⟩
    · exact Or.inr ⟨l', List.mem_cons_of_mem l hl', he⟩

/-- The links extractLinks returns do not depend on the counter values it
is handed (the counters only flow into the second component). -/
theorem extractLinks_fst_counters (cfg : CrawlerConfig) (bd : Option String)
    (pageUrl : String) (c c' : CrawlerCounters) (o : FetchOutcome) :
    (Crawler.extractLinks cfg bd pageUrl c o).1 =
      (Crawler.extractLinks cfg bd pageUrl c' o).1 := by
  cases o with
  | ok hrefs =>
    cases h : processHrefs cfg bd pageUrl hrefs <;> simp [Crawler.extractLinks, h]
  | okNoData => rfl
  | okExtractThrows => rfl
  | httpError status =>
    by_cases h : status ∈ cfg.skipCodes <;> simp [Crawler.extractLinks, h]
  | networkError => rfl

/-- The same-domain links of a page, independent of engine state. -/
def pageLinks (cfg : CrawlerConfig) (bd : Option String) (web : Web)
    (url : String) : List String :=
  (Crawler.extractLinks cfg bd url ⟨0, 0, 0⟩ (web url)).1

theorem processUrl_alreadyCrawled (cfg : CrawlerConfig) (web : Web)
    (bd : Option String) (st : CrawlerState) (url : String) :
    (Crawler.processUrl cfg web bd st url).alreadyCrawled = st.alreadyCrawled := by
  simp only [Crawler.processUrl]
  rw [foldl_push_alreadyCrawled]

theorem processUrl_batchLog (cfg : CrawlerConfig) (web : Web)
    (bd : Option String) (st : CrawlerState) (url : String) :
    (Crawler.processUrl cfg web bd st url).batchLog = st.batchLog := by
  simp only [Crawler.processUrl]
  rw [foldl_push_batchLog]

theorem processUrl_fetchLog (cfg : CrawlerConfig) (web : Web)
    (bd : Option String) (st : CrawlerState) (url : String) :
    (Crawler.processUrl cfg web bd st url).fetchLog = st.fetchLog ++ [url] := by
  simp only [Crawler.processUrl]
  rw [foldl_push_fetchLog]

theorem processUrl_batchesCrawled (cfg : CrawlerConfig) (web : Web)
    (bd : Option String) (st : CrawlerState) (url : String) :
    (Crawler.processUrl cfg web bd st url).batchesCrawled = st.batchesCrawled := by
  simp only [Crawler.processUrl]
  rw [foldl_push_batchesCrawled]

theorem processUrl_crawled (cfg : CrawlerConfig) (web : Web)
    (bd : Option String) (st : CrawlerState) (url : String) :
    (Crawler.processUrl cfg web bd st url).counters.crawled =
      st.counters.crawled + 1 := by
  simp only [Crawler.processUrl]
  rw [foldl_push_counters]
  exact c6_crawled_incremented_once cfg bd url st.counters (web url)

theorem processUrl_inv (cfg : CrawlerConfig) (web : Web) (bd : Option String)
    (st : CrawlerState) (url : String) (h : stInv st) :
    stInv (Crawler.processUrl cfg web bd st url) := by
  simp only [Crawler.processUrl]
  apply foldl_push_inv
  exact h

theorem processUrl_queue_mem (cfg : CrawlerConfig) (web : Web) (bd : Option String)
    (st : CrawlerState) (url : String) :
    ∀ q ∈ (Crawler.processUrl cfg web bd st url).queue,
      q ∈ st.queue ∨ ∃ l ∈ pageLinks cfg bd web url,
        q = normalizeUrl cfg.ignoreCase cfg.ignoreQueryParams l := by
  intro q hq
  simp only [Crawler.processUrl] at hq
  rcases foldl_push_queue_mem cfg _ _ q hq with h | ⟨l, hl, he⟩
  · exact Or.inl h
  · refine Or.inr ⟨l, ?_, he⟩
    rw [pageLinks, extractLinks_fst_counters cfg bd url ⟨0, 0, 0⟩ st.counters]
    exact hl

theorem foldl_processUrl_inv (cfg : CrawlerConfig) (web : Web) (bd : Option String)
    (batch : List String) :
    ∀ st : CrawlerState, stInv st →
      stInv (batch.foldl (Crawler.processUrl cfg web bd) st) := by
  induction batch with
  | nil => exact fun st h => h
  | cons u us ih =>
    intro st h
    exact ih _ (processUrl_inv cfg web bd st u h)

theorem foldl_processUrl_alreadyCrawled (cfg : CrawlerConfig) (web : Web)
    (bd : Option String) (batch : List String) :
    ∀ st : CrawlerState,
      (batch.foldl (Crawler.processUrl cfg web bd) st).alreadyCrawled =
        st.alreadyCrawled := by
  induction batch with
  | nil => exact fun _ => rfl
  | cons u us ih =>
    intro st
    rw [List.foldl_cons, ih, processUrl_alreadyCrawled]

theorem foldl_processUrl_batchLog (cfg : CrawlerConfig) (web : Web)
    (bd : Option String) (batch : List String) :
    ∀ st : CrawlerState,
      (batch.foldl (Crawler.processUrl cfg web bd) st).batchLog = st.batchLog := by
  induction batch with
  | nil => exact fun _ => rfl
  | cons u us ih =>
    intro st
    rw [List.foldl_cons, ih, processUrl_batchLog]

theorem foldl_processUrl_fetchLog (cfg : CrawlerConfig) (web : Web)
    (bd : Option String) (batch : List String) :
    ∀ st : CrawlerState,
      (batch.foldl (Crawler.processUrl cfg web bd) st).fetchLog =
        st.fetchLog ++ batch := by
  induction batch with
  | nil => exact fun _ => by simp
  | cons u us ih =>
    intro st
    rw [List.foldl_cons, ih, processUrl_fetchLog]
    simp

theorem foldl_processUrl_batchesCrawled (cfg : CrawlerConfig) (web : Web)
    (bd : Option String) (batch : List String) :
    ∀ st : CrawlerState,
      (batch.foldl (Crawler.processUrl cfg web bd) st).batchesCrawled =
        st.batchesCrawled := by
  induction batch with
  | nil => exact fun _ => rfl
  | cons u us ih =>
    intro st
    rw [List.foldl_cons, ih, processUrl_batchesCrawled]

theorem foldl_processUrl_crawled (cfg : CrawlerConfig) (web : Web)
    (bd : Option String) (batch : List String) :
    ∀ st : CrawlerState,
      (batch.foldl (Crawler.processUrl cfg web bd) st).counters.crawled =
        st.counters.crawled + batch.length := by
  induction batch with
  | nil => exact fun _ => rfl
  | cons u us ih =>
    intro st
    rw [List.foldl_cons, ih, processUrl_crawled]
    simp only [List.length_cons]
    omega

theorem foldl_processUrl_queue_mem (cfg : CrawlerConfig) (web : Web)
    (bd : Option String) (batch : List String) :
    ∀ st : CrawlerState, ∀ q ∈ (batch.foldl (Crawler.processUrl cfg web bd) st).queue,
      q ∈ st.queue ∨ ∃ url, ∃ l ∈ pageLinks cfg bd web url,
        q = normalizeUrl cfg.ignoreCase cfg.ignoreQueryParams l := by
  induction batch with
  | nil => exact fun st q hq => Or.inl hq
  | cons u us ih =>
    intro st q hq
    rw [List.foldl_cons] at hq
    rcases ih _ q hq with h | h
    · rcases processUrl_queue_mem cfg web bd st u q h with h' | ⟨l, hl, he⟩
      · exact Or.inl h'
      · exact Or.inr ⟨u, l, hl, he⟩
    · exact Or.inr h

/-- takeAndRemove preserves the invariant: the batch is a duplicate-free
slice of the frontier, moved wholesale into the visited set. -/
theorem takeAndRemove_inv (cfg : CrawlerConfig) (st : CrawlerState)
    (h : stInv st) : stInv (Crawler.takeAndRemove cfg st).2 := by
  obtain ⟨hq, hc, hd, hb⟩ := h
  simp only [Crawler.takeAndRemove]
  refine ⟨?_, ?_, ?_, ?_⟩
  · exact List.Nodup.sublist (List.drop_sublist _ _) hq
  · rw [List.nodup_append]
    refine ⟨hc, List.Nodup.sublist (List.take_sublist _ _) hq, ?_⟩
    intro a hac hat
    exact hd (List.Sublist.mem hat (List.take_sublist _ _)) hac
  · intro a had hmem
    rw [List.mem_append] at hmem
    rcases hmem with h | h
    · exact hd (List.Sublist.mem had (List.drop_sublist _ _)) h
    · exact List.disjoint_take_drop hq (Nat.le_refl _) h had
  · rw [List.flatten_append, hb]
    simp

theorem crawlStep_inv (cfg : CrawlerConfig) (web : Web) (bd : Option String)
    (st : CrawlerState) (h : stInv st) :
    stInv (Crawler.crawlStep cfg web bd st) := by
  simp only [Crawler.crawlStep]
  exact foldl_processUrl_inv cfg web bd _ _ (takeAndRemove_inv cfg st h)

theorem crawlStep_alreadyCrawled (cfg : CrawlerConfig) (web : Web)
    (bd : Option String) (st : CrawlerState) :
    (Crawler.crawlStep cfg web bd st).alreadyCrawled =
      st.alreadyCrawled ++ st.queue.take cfg.maxConcurrentThreads := by
  simp only [Crawler.crawlStep]
  rw [foldl_processUrl_alreadyCrawled]
  rfl

theorem crawlStep_fetchLog (cfg : CrawlerConfig) (web : Web)
    (bd : Option String) (st : CrawlerState) :
    (Crawler.crawlStep cfg web bd st).fetchLog =
      st.fetchLog ++ st.queue.take cfg.maxConcurrentThreads := by
  simp only [Crawler.crawlStep]
  rw [foldl_processUrl_fetchLog]
  rfl

theorem crawlStep_crawled (cfg : CrawlerConfig) (web : Web)
    (bd : Option String) (st : CrawlerState) :
    (Crawler.crawlStep cfg web bd st).counters.crawled =
      st.counters.crawled + (st.queue.take cfg.maxConcurrentThreads).length := by
  simp only [Crawler.crawlStep]
  rw [foldl_processUrl_crawled]
  rfl

theorem crawlStep_queue_mem (cfg : CrawlerConfig) (web : Web) (bd : Option String)
    (st : CrawlerState) :
    ∀ q ∈ (Crawler.crawlStep cfg web bd st).queue,
      q ∈ st.queue ∨ ∃ url, ∃ l ∈ pageLinks cfg bd web url,
        q = normalizeUrl cfg.ignoreCase cfg.ignoreQueryParams l := by
  intro q hq
  simp only [Crawler.crawlStep] at hq
  rcases foldl_processUrl_queue_mem cfg web bd _ _ q hq with h | h
  · left
    simp only [Crawler.takeAndRemove] at h
    exact List.Sublist.mem h (List.drop_sublist _ _)
  · exact Or.inr h

theorem crawlLoop_inv (cfg : CrawlerConfig) (web : Web) (bd : Option String) :
    ∀ fuel (st st' : CrawlerState), stInv st →
      Crawler.crawlLoop cfg web bd fuel st = some st' → stInv st' := by
  intro fuel
  induction fuel with
  | zero =>
    intro st st' h hl
    simp only [Crawler.crawlLoop] at hl
    split at hl
    · cases hl
      exact h
    · cases hl
  | succ n ih =>
    intro st st' h hl
    simp only [Crawler.crawlLoop] at hl
    split at hl
    · cases hl
      exact h
    · exact ih _ _ (crawlStep_inv cfg web bd st h) hl

theorem crawlLoop_fetchLog (cfg : CrawlerConfig) (web : Web) (bd : Option String) :
    ∀ fuel (st st' : CrawlerState),
      Crawler.crawlLoop cfg web bd fuel st = some st' →
      ∃ tail, st'.fetchLog = st.fetchLog ++ tail := by
  intro fuel
  induction fuel with
  | zero =>
    intro st st' hl
    simp only [Crawler.crawlLoop] at hl
    split at hl
    · cases hl
      exact ⟨[], by simp⟩
    · cases hl
  | succ n ih =>
    intro st st' hl
    simp only [Crawler.crawlLoop] at hl
    split at hl
    · cases hl
      exact ⟨[], by simp⟩
    · obtain ⟨tail, ht⟩ := ih _ _ hl
      rw [crawlStep_fetchLog] at ht
      exact ⟨_, by rw [ht, List.append_assoc]⟩

theorem crawlLoop_crawled_mono (cfg : CrawlerConfig) (web : Web) (bd : Option String) :
    ∀ fuel (st st' : CrawlerState),
      Crawler.crawlLoop cfg web bd fuel st = some st' →
      st.counters.crawled ≤ st'.counters.crawled := by
  intro fuel
  induction fuel with
  | zero =>
    intro st st' hl
    simp only [Crawler.crawlLoop] at hl
    split at hl
    · cases hl
      exact Nat.le_refl _
    · cases hl
  | succ n ih =>
    intro st st' hl
    simp only [Crawler.crawlLoop] at hl
    split at hl
    · cases hl
      exact Nat.le_refl _
    · refine Nat.le_trans ?_ (ih _ _ hl)
      rw [crawlStep_crawled]
      exact Nat.le_add_right _ _

/-- Fuel equal to the size of any duplicate-free universe containing every
normalized discovered link suffices for the loop to drain the frontier:
each iteration moves at least one URL of the universe from the frontier
into the visited set. -/
theorem crawlLoop_isSome (cfg : CrawlerConfig) (web : Web) (bd : Option String)
    (U : List String) (hk : 1 ≤ cfg.maxConcurrentThreads)
    (hlinks : ∀ url l, l ∈ pageLinks cfg bd web url →
      normalizeUrl cfg.ignoreCase cfg.ignoreQueryParams l ∈ U) :
    ∀ fuel (st : CrawlerState), stInv st →
      (∀ q ∈ st.queue, q ∈ U) → (∀ q ∈ st.alreadyCrawled, q ∈ U) →
      U.length ≤ fuel + st.alreadyCrawled.length →
      (Crawler.crawlLoop cfg web bd fuel st).isSome := by
  intro fuel
  induction fuel with
  | zero =>
    intro st hinv hqU hcU hlen
    simp only [Crawler.crawlLoop]
    rw [if_pos]
    · rfl
    · by_contra hne
      obtain ⟨q, hq⟩ := List.exists_mem_of_ne_nil _ hne
      have hnodup : (q :: st.alreadyCrawled).Nodup :=
        List.nodup_cons.mpr ⟨hinv.2.2.1 hq, hinv.2.1⟩
      have hsub : (q :: st.alreadyCrawled) ⊆ U := by
        intro a ha
        rcases List.mem_cons.mp ha with h | h
        · subst h
          exact hqU _ hq
        · exact hcU a h
      have := (hnodup.subperm hsub).length_le
      simp only [List.length_cons] at this
      omega
  | succ n ih =>
    intro st hinv hqU hcU hlen
    simp only [Crawler.crawlLoop]
    split
    · rfl
    · rename_i hne
      apply ih
      · exact crawlStep_inv cfg web bd st hinv
      · intro q hq
        rcases crawlStep_queue_mem cfg web bd st q hq with h | ⟨url, l, hl, he⟩
        · exact hqU q h
        · subst he
          exact hlinks url l hl
      · intro q hq
        rw [crawlStep_alreadyCrawled] at hq
        rcases List.mem_append.mp hq with h | h
        · exact hcU q h
        · exact hqU q (List.Sublist.mem h (List.take_sublist _ _))
      · rw [crawlStep_alreadyCrawled]
        have hq1 : 1 ≤ st.queue.length := List.length_pos.mpr hne
        simp only [List.length_append, List.length_take]
        omega

/-! ### Properties of the initial state and of whole crawls -/

theorem initialState_inv (cfg : CrawlerConfig) (web : Web) (seed : String) :
    stInv (Crawler.initialState cfg web seed) := by
  have h0 : stInv ⟨[], [], ⟨0, 0, 0⟩, 0, [], []⟩ := by
    refine ⟨List.nodup_nil, List.nodup_nil, ?_, rfl⟩
    intro a ha
    cases ha
  exact processUrl_inv cfg web _ _ seed h0

theorem initialState_fetchLog (cfg : CrawlerConfig) (web : Web) (seed : String) :
    (Crawler.initialState cfg web seed).fetchLog = [seed] := by
  simp [Crawler.initialState, processUrl_fetchLog]

theorem initialState_crawled (cfg : CrawlerConfig) (web : Web) (seed : String) :
    (Crawler.initialState cfg web seed).counters.crawled = 1 := by
  have : (Crawler.initialState cfg web seed).counters.crawled =
      (Crawler.processUrl cfg web (domainOf cfg seed)
        ⟨[], [], ⟨0, 0, 0⟩, 0, [], []⟩ seed).counters.crawled := rfl
  rw [this, processUrl_crawled]

theorem initialState_alreadyCrawled (cfg : CrawlerConfig) (web : Web) (seed : String) :
    (Crawler.initialState cfg web seed).alreadyCrawled = [] := by
  have : (Crawler.initialState cfg web seed).alreadyCrawled =
      (Crawler.processUrl cfg web (domainOf cfg seed)
        ⟨[], [], ⟨0, 0, 0⟩, 0, [], []⟩ seed).alreadyCrawled := rfl
  rw [this, processUrl_alreadyCrawled]

theorem initialState_queue_mem (cfg : CrawlerConfig) (web : Web) (seed : String) :
    ∀ q ∈ (Crawler.initialState cfg web seed).queue,
      ∃ l ∈ pageLinks cfg (domainOf cfg seed) web seed,
        q = normalizeUrl cfg.ignoreCase cfg.ignoreQueryParams l := by
  intro q hq
  have hq' : q ∈ (Crawler.processUrl cfg web (domainOf cfg seed)
      ⟨[], [], ⟨0, 0, 0⟩, 0, [], []⟩ seed).queue := hq
  rcases processUrl_queue_mem cfg web _ _ seed q hq' with h | h
  · cases h
  · exact h

/-- Every state a completed crawl hands back satisfies the engine
invariant. -/
theorem crawl_inv (cfg : CrawlerConfig) (web : Web) (seed : String) (fuel : Nat)
    (st : CrawlerState) (h : Crawler.crawl cfg web seed fuel = some st) :
    stInv st :=
  crawlLoop_inv cfg web _ fuel _ st (initialState_inv cfg web seed) h

/-- The very first fetch of any completed crawl is the seed. -/
theorem crawl_fetchLog_head (cfg : CrawlerConfig) (web : Web) (seed : String)
    (fuel : Nat) (st : CrawlerState)
    (h : Crawler.crawl cfg web seed fuel = some st) :
    st.fetchLog.head? = some seed := by
  obtain ⟨tail, ht⟩ := crawlLoop_fetchLog cfg web _ fuel _ st h
  rw [ht, initialState_fetchLog]
  rfl

/-- A completed crawl has attempted at least one fetch: the crawled
counter of the final state is at least 1. -/
theorem crawl_crawled_ge_one (cfg : CrawlerConfig) (web : Web) (seed : String)
    (fuel : Nat) (st : CrawlerState)
    (h : Crawler.crawl cfg web seed fuel = some st) :
    1 ≤ st.counters.crawled := by
  have := crawlLoop_crawled_mono cfg web _ fuel _ st h
  rw [initialState_crawled] at this
  exact this

/-! ### Claims C2, C3, C5 -/

/-- Counterexample to claim C2: running the scenario (seed https://x.com,
graph / to /a and /b plus a cross-domain link, /b back to /a) the crawl
does terminate with crawled=3, skipped=0, error=0 — but the VisitedSet
handed to the sink is only the two discovered pages; the seed page is
absent from it, so the claimed final VisitedSet of all three same-domain
pages (seed included) is wrong. -/
theorem c2_seed_missing_from_visited_set :
    (Crawler.crawl cfgDefault webC2 "https://x.com" 10).map CrawlerState.alreadyCrawled =
      some ["https://x.com/a", "https://x.com/b"] ∧
    "https://x.com" ∉ ["https://x.com/a", "https://x.com/b"] := by
  decide

/-- Claim C2 (amended): for every link graph whose normalized discovered
links all lie in some finite universe U, the frontier engine terminates
within U.length batches after the seed batch (fuel U.length suffices); and
in the given scenario — where no page links back to the seed — the crawl
ends with VisitedSet containing only the two discovered pages /a and /b:
the seed page, fetched directly before the batch loop without passing the
visited-set gate, is not recorded in it, so the claimed {/, /a, /b} is
off by the seed; crawled=3, skipped=0, error=0, batchesCrawled=2, and
other.com is never fetched. -/
theorem c2_crawl_terminates :
    (∀ (cfg : CrawlerConfig) (web : Web) (seed : String) (U : List String),
      1 ≤ cfg.maxConcurrentThreads →
      (∀ url l, l ∈ pageLinks cfg (domainOf cfg seed) web url →
        normalizeUrl cfg.ignoreCase cfg.ignoreQueryParams l ∈ U) →
      (Crawler.crawl cfg web seed U.length).isSome) ∧
    Crawler.crawl cfgDefault webC2 "https://x.com" 10 =
      some ⟨[], ["https://x.com/a", "https://x.com/b"], ⟨3, 0, 0⟩, 2,
        ["https://x.com", "https://x.com/a", "https://x.com/b"],
        [["https://x.com/a", "https://x.com/b"]]⟩ ∧
    "http://other.com/x" ∉ ["https://x.com", "https://x.com/a", "https://x.com/b"] := by
  refine ⟨?_, by decide, by decide⟩
  intro cfg web seed U hk hlinks
  apply crawlLoop_isSome cfg web (domainOf cfg seed) U hk hlinks U.length
    (Crawler.initialState cfg web seed) (initialState_inv cfg web seed)
  · intro q hq
    obtain ⟨l, hl, he⟩ := initialState_queue_mem cfg web seed q hq
    subst he
    exact hlinks seed l hl
  · intro q hq
    rw [initialState_alreadyCrawled] at hq
    cases hq
  · rw [initialState_alreadyCrawled]
    simp

/-- Witness for the general termination part of the amended C2, at the
scenario graph: the universe of discovered normalized links has two URLs,
and fuel 2 completes the crawl. -/
theorem c2_crawl_terminates_witness :
    (Crawler.crawl cfgDefault webC2 "https://x.com"
      (["https://x.com/a", "https://x.com/b"] : List String).length).isSome := by
  apply c2_crawl_terminates.1 cfgDefault webC2 "https://x.com"
    ["https://x.com/a", "https://x.com/b"] (by decide)
  intro url l hl
  by_cases h1 : url = "https://x.com"
  · subst h1
    rw [show pageLinks cfgDefault (domainOf cfgDefault "https://x.com") webC2 "https://x.com"
        = ["https://x.com/a", "https://x.com/b"] from by decide] at hl
    rcases hl with _ | ⟨_, _ | ⟨_, h⟩⟩
    · decide
    · decide
    · cases h
  · by_cases h2 : url = "https://x.com/a"
    · subst h2
      rw [show pageLinks cfgDefault (domainOf cfgDefault "https://x.com") webC2 "https://x.com/a"
          = [] from by decide] at hl
      cases hl
    · by_cases h3 : url = "https://x.com/b"
      · subst h3
        rw [show pageLinks cfgDefault (domainOf cfgDefault "https://x.com") webC2 "https://x.com/b"
            = ["https://x.com/a"] from by decide] at hl
        rcases hl with _ | ⟨_, h⟩
        · decide
        · cases h
      · have hw : webC2 url = FetchOutcome.httpError 404 := by
          simp [webC2, h1, h2, h3]
        simp [pageLinks, hw, Crawler.extractLinks, cfgDefault] at hl

/-- Counterexample to claim C3: with the unparseable seed "notaurl" the
computed base domain is null, yet the crawl does not abort — the seed is
still fetched (the fetch log is nonempty) and one page is processed
(crawled = 1), contradicting "aborts with zero pages processed (no fetch
is ever attempted)". -/
theorem c3_invalid_seed_still_fetched :
    domainOf cfgDefault "notaurl" = none ∧
    (Crawler.crawl cfgDefault webErr "notaurl" 5).map
      (fun st => (st.fetchLog, st.counters.crawled)) = some (["notaurl"], 1) := by
  decide

/-- Claim C3 (amended): a null BaseDomain is logged but is NOT treated as
fatal — for every web and every seed whose domain computes to null, a
completed crawl has still fetched the seed first and has processed at
least one page. -/
theorem c3_null_domain_crawl_continues (cfg : CrawlerConfig) (web : Web)
    (seed : String) (fuel : Nat) (st : CrawlerState)
    (hdom : domainOf cfg seed = none)
    (h : Crawler.crawl cfg web seed fuel = some st) :
    st.fetchLog.head? = some seed ∧ 1 ≤ st.counters.crawled :=
  ⟨crawl_fetchLog_head cfg web seed fuel st h,
    crawl_crawled_ge_one cfg web seed fuel st h⟩

/-- Witness for the amended C3 at the concrete invalid seed "notaurl". -/
theorem c3_null_domain_crawl_continues_witness :
    (⟨[], [], ⟨1, 0, 1⟩, 1, ["notaurl"], []⟩ : CrawlerState).fetchLog.head? =
        some "notaurl" ∧
      1 ≤ (⟨[], [], ⟨1, 0, 1⟩, 1, ["notaurl"], []⟩ : CrawlerState).counters.crawled :=
  c3_null_domain_crawl_continues cfgDefault webErr "notaurl" 5
    ⟨[], [], ⟨1, 0, 1⟩, 1, ["notaurl"], []⟩ (by decide) (by decide)

/-- Counterexample to claim C5: on the one-page site whose page links back
to the seed, the seed URL is fetched twice — once directly at crawl start
and once through a batch — because the initial seed fetch never records
the seed in the visited set. -/
theorem c5_seed_fetched_twice :
    (Crawler.crawl cfgDefault webSelfLoop "https://x.com/" 10).map
      (fun st => st.fetchLog.count "https://x.com/") = some 2 := by
  decide

/-- Claim C5 (amended): across one whole crawl no URL appears in more than
one batch and none appears twice within a batch (the concatenation of all
batches is duplicate-free and equals the VisitedSet, and the frontier
stays disjoint from the VisitedSet), so every BATCHED URL is fetched at
most once; the seed, however, is fetched outside any batch and may be
fetched a second time through a batch when some page links back to it, as
the self-loop site shows. -/
theorem c5_no_url_in_two_batches :
    (∀ (cfg : CrawlerConfig) (web : Web) (seed : String) (fuel : Nat)
      (st : CrawlerState), Crawler.crawl cfg web seed fuel = some st →
        st.batchLog.flatten.Nodup ∧ st.batchLog.flatten = st.alreadyCrawled ∧
          st.queue.Disjoint st.alreadyCrawled) ∧
    (Crawler.crawl cfgDefault webSelfLoop "https://x.com/" 10).map
      CrawlerState.fetchLog = some ["https://x.com/", "https://x.com/"] := by
  refine ⟨?_, by decide⟩
  intro cfg web seed fuel st h
  obtain ⟨hq, hc, hd, hb⟩ := crawl_inv cfg web seed fuel st h
  refine ⟨?_, hb, hd⟩
  rw [hb]
  exact hc

/-- Witness for the invariant part of the amended C5 at the self-loop
crawl's final state. -/
theorem c5_no_url_in_two_batches_witness :
    (⟨[], ["https://x.com/"], ⟨2, 0, 0⟩, 2, ["https://x.com/", "https://x.com/"],
        [["https://x.com/"]]⟩ : CrawlerState).batchLog.flatten.Nodup ∧
      (⟨[], ["https://x.com/"], ⟨2, 0, 0⟩, 2, ["https://x.com/", "https://x.com/"],
        [["https://x.com/"]]⟩ : CrawlerState).batchLog.flatten =
        (⟨[], ["https://x.com/"], ⟨2, 0, 0⟩, 2, ["https://x.com/", "https://x.com/"],
          [["https://x.com/"]]⟩ : CrawlerState).alreadyCrawled ∧
      (⟨[], ["https://x.com/"], ⟨2, 0, 0⟩, 2, ["https://x.com/", "https://x.com/"],
        [["https://x.com/"]]⟩ : CrawlerState).queue.Disjoint
        (⟨[], ["https://x.com/"], ⟨2, 0, 0⟩, 2, ["https://x.com/", "https://x.com/"],
          [["https://x.com/"]]⟩ : CrawlerState).alreadyCrawled :=
  c5_no_url_in_two_batches.1 cfgDefault webSelfLoop "https://x.com/" 10
    ⟨[], ["https://x.com/"], ⟨2, 0, 0⟩, 2, ["https://x.com/", "https://x.com/"],
      [["https://x.com/"]]⟩ (by decide)
